import Mathlib

/-!
Shallow embedding of the `funtils` utility library (src/index.js) and proofs
about its exported functions.

JavaScript values are modelled by the mutual inductive `JVal`/`JList`/`JEntries`:
primitives, function references (functions are opaque leaves identified by a
numeric id), arrays and plain objects.  Every array and object carries a `Nat`
identity tag standing for its heap address: two containers are "the same
instance" exactly when their tags are equal.  Operations that allocate fresh
containers thread a counter `c` and hand out tags `c, c+1, ...`, so a value
whose tags all lie below `c` shares no container with anything allocated
afterwards.  Fallible operations (those that can throw a TypeError at runtime)
return `Except String _`.
-/

set_option autoImplicit false

namespace Funtils

mutual

inductive JVal : Type where
  | vstr : String → JVal
  | vnum : Int → JVal
  | vbool : Bool → JVal
  | vnull : JVal
  | vundef : JVal
  | vfn : Nat → JVal
  | varr : Nat → JList → JVal
  | vobj : Nat → JEntries → JVal

inductive JList : Type where
  | nil : JList
  | cons : JVal → JList → JList

inductive JEntries : Type where
  | nil : JEntries
  | cons : String → JVal → JEntries → JEntries

end

deriving instance DecidableEq for JVal
deriving instance Repr for JVal

mutual

/-- Container identity tags occurring anywhere in a value. -/
def tagsV : JVal → List Nat
  | .varr id l => id :: tagsL l
  | .vobj id es => id :: tagsE es
  | _ => []

def tagsL : JList → List Nat
  | .nil => []
  | .cons v rest => tagsV v ++ tagsL rest

def tagsE : JEntries → List Nat
  | .nil => []
  | .cons _ v rest => tagsV v ++ tagsE rest

end

mutual

/-- Erase container identity tags (set them all to `0`).  Two values are
deep-equal in the JavaScript sense exactly when their erasures coincide. -/
def eraseV : JVal → JVal
  | .varr _ l => .varr 0 (eraseL l)
  | .vobj _ es => .vobj 0 (eraseE es)
  | v => v

def eraseL : JList → JList
  | .nil => .nil
  | .cons v rest => .cons (eraseV v) (eraseL rest)

def eraseE : JEntries → JEntries
  | .nil => .nil
  | .cons k v rest => .cons k (eraseV v) (eraseE rest)

end

mutual

/-- `true` when the value contains no `null` anywhere (not at the top, not
inside any array element or object entry). -/
def noNullV : JVal → Bool
  | .vnull => false
  | .varr _ l => noNullL l
  | .vobj _ es => noNullE es
  | _ => true

def noNullL : JList → Bool
  | .nil => true
  | .cons v rest => noNullV v && noNullL rest

def noNullE : JEntries → Bool
  | .nil => true
  | .cons _ v rest => noNullV v && noNullE rest

end

mutual

/-- `clone` from src/index.js, branch for branch.  The source tests
`obj_or_array instanceof Array` first (element-wise recursive copy into a
fresh array), then `instanceof Function` (returned by reference), then
`instanceof Object || typeof obj_or_array === 'object'` (recursive copy of
every key into the fresh `cloneObj`).  Because `typeof null === 'object'`,
`null` reaches that object branch and `Object.keys(null)` throws a
TypeError.  All remaining primitives (string, number, boolean, undefined)
fall through to `return obj_or_array`.  The counter `c` supplies identity
tags for the freshly allocated containers. -/
def cloneV : Nat → JVal → Except String (Nat × JVal)
  | c, .varr _ l =>
    match cloneL c l with
    | .error e => .error e
    | .ok (c2, l2) => .ok (c2 + 1, .varr c2 l2)
  | c, .vfn i => .ok (c, .vfn i)
  | c, .vobj _ es =>
    match cloneE c es with
    | .error e => .error e
    | .ok (c2, es2) => .ok (c2 + 1, .vobj c2 es2)
  | _, .vnull => .error "TypeError: Cannot convert undefined or null to object"
  | c, v => .ok (c, v)

def cloneL : Nat → JList → Except String (Nat × JList)
  | c, .nil => .ok (c, .nil)
  | c, .cons v rest =>
    match cloneV c v with
    | .error e => .error e
    | .ok (c2, v2) =>
      match cloneL c2 rest with
      | .error e => .error e
      | .ok (c3, rest2) => .ok (c3, .cons v2 rest2)

def cloneE : Nat → JEntries → Except String (Nat × JEntries)
  | c, .nil => .ok (c, .nil)
  | c, .cons k v rest =>
    match cloneV c v with
    | .error e => .error e
    | .ok (c2, v2) =>
      match cloneE c2 rest with
      | .error e => .error e
      | .ok (c3, rest2) => .ok (c3, .cons k v2 rest2)

end

mutual

/-- Successful clones are deep-equal to the source (equal after tag erasure)
and only use fresh tags from the interval `[c, c2)`. -/
theorem cloneV_spec (v : JVal) : ∀ (c c2 : Nat) (w : JVal), cloneV c v = .ok (c2, w) →
    eraseV w = eraseV v ∧ c ≤ c2 ∧ (∀ t ∈ tagsV w, c ≤ t ∧ t < c2) := by
  cases v with
  | varr id l =>
    intro c c2 w h
    simp only [cloneV] at h
    cases hl : cloneL c l with
    | error e => rw [hl] at h; exact absurd h (by simp)
    | ok p =>
      obtain ⟨c3, l2⟩ := p
      rw [hl] at h
      simp only [Except.ok.injEq, Prod.mk.injEq] at h
      obtain ⟨hc, hw⟩ := h
      obtain ⟨he, hle, htags⟩ := cloneL_spec l c c3 l2 hl
      subst hc; subst hw
      refine ⟨by simp [eraseV, he], by omega, ?_⟩
      intro t ht
      simp only [tagsV, List.mem_cons] at ht
      rcases ht with rfl | ht
      · exact ⟨hle, by omega⟩
      · have := htags t ht; omega
  | vobj id es =>
    intro c c2 w h
    simp only [cloneV] at h
    cases hl : cloneE c es with
    | error e => rw [hl] at h; exact absurd h (by simp)
    | ok p =>
      obtain ⟨c3, es2⟩ := p
      rw [hl] at h
      simp only [Except.ok.injEq, Prod.mk.injEq] at h
      obtain ⟨hc, hw⟩ := h
      obtain ⟨he, hle, htags⟩ := cloneE_spec es c c3 es2 hl
      subst hc; subst hw
      refine ⟨by simp [eraseV, he], by omega, ?_⟩
      intro t ht
      simp only [tagsV, List.mem_cons] at ht
      rcases ht with rfl | ht
      · exact ⟨hle, by omega⟩
      · have := htags t ht; omega
  | vfn i =>
    intro c c2 w h
    simp only [cloneV, Except.ok.injEq, Prod.mk.injEq] at h
    obtain ⟨rfl, rfl⟩ := h
    exact ⟨rfl, le_refl _, by simp [tagsV]⟩
  | vnull => intro c c2 w h; exact absurd h (by simp [cloneV])
  | vstr s =>
    intro c c2 w h
    simp only [cloneV, Except.ok.injEq, Prod.mk.injEq] at h
    obtain ⟨rfl, rfl⟩ := h
    exact ⟨rfl, le_refl _, by simp [tagsV]⟩
  | vnum n =>
    intro c c2 w h
    simp only [cloneV, Except.ok.injEq, Prod.mk.injEq] at h
    obtain ⟨rfl, rfl⟩ := h
    exact ⟨rfl, le_refl _, by simp [tagsV]⟩
  | vbool b =>
    intro c c2 w h
    simp only [cloneV, Except.ok.injEq, Prod.mk.injEq] at h
    obtain ⟨rfl, rfl⟩ := h
    exact ⟨rfl, le_refl _, by simp [tagsV]⟩
  | vundef =>
    intro c c2 w h
    simp only [cloneV, Except.ok.injEq, Prod.mk.injEq] at h
    obtain ⟨rfl, rfl⟩ := h
    exact ⟨rfl, le_refl _, by simp [tagsV]⟩

theorem cloneL_spec (l : JList) : ∀ (c c2 : Nat) (w : JList), cloneL c l = .ok (c2, w) →
    eraseL w = eraseL l ∧ c ≤ c2 ∧ (∀ t ∈ tagsL w, c ≤ t ∧ t < c2) := by
  cases l with
  | nil =>
    intro c c2 w h
    simp only [cloneL, Except.ok.injEq, Prod.mk.injEq] at h
    obtain ⟨rfl, rfl⟩ := h
    exact ⟨rfl, le_refl _, by simp [tagsL]⟩
  | cons v rest =>
    intro c c2 w h
    simp only [cloneL] at h
    cases hv : cloneV c v with
    | error e => rw [hv] at h; exact absurd h (by simp)
    | ok p =>
      obtain ⟨c3, v2⟩ := p
      rw [hv] at h
      dsimp only at h
      cases hr : cloneL c3 rest with
      | error e => rw [hr] at h; exact absurd h (by simp)
      | ok q =>
        obtain ⟨c4, rest2⟩ := q
        rw [hr] at h
        simp only [Except.ok.injEq, Prod.mk.injEq] at h
        obtain ⟨hc, hw⟩ := h
        obtain ⟨he1, hle1, ht1⟩ := cloneV_spec v c c3 v2 hv
        obtain ⟨he2, hle2, ht2⟩ := cloneL_spec rest c3 c4 rest2 hr
        subst hc; subst hw
        refine ⟨by simp [eraseL, he1, he2], by omega, ?_⟩
        intro t ht
        simp only [tagsL, List.mem_append] at ht
        rcases ht with ht | ht
        · have := ht1 t ht; omega
        · have := ht2 t ht; omega

theorem cloneE_spec (es : JEntries) : ∀ (c c2 : Nat) (w : JEntries), cloneE c es = .ok (c2, w) →
    eraseE w = eraseE es ∧ c ≤ c2 ∧ (∀ t ∈ tagsE w, c ≤ t ∧ t < c2) := by
  cases es with
  | nil =>
    intro c c2 w h
    simp only [cloneE, Except.ok.injEq, Prod.mk.injEq] at h
    obtain ⟨rfl, rfl⟩ := h
    exact ⟨rfl, le_refl _, by simp [tagsE]⟩
  | cons k v rest =>
    intro c c2 w h
    simp only [cloneE] at h
    cases hv : cloneV c v with
    | error e => rw [hv] at h; exact absurd h (by simp)
    | ok p =>
      obtain ⟨c3, v2⟩ := p
      rw [hv] at h
      dsimp only at h
      cases hr : cloneE c3 rest with
      | error e => rw [hr] at h; exact absurd h (by simp)
      | ok q =>
        obtain ⟨c4, rest2⟩ := q
        rw [hr] at h
        simp only [Except.ok.injEq, Prod.mk.injEq] at h
        obtain ⟨hc, hw⟩ := h
        obtain ⟨he1, hle1, ht1⟩ := cloneV_spec v c c3 v2 hv
        obtain ⟨he2, hle2, ht2⟩ := cloneE_spec rest c3 c4 rest2 hr
        subst hc; subst hw
        refine ⟨by simp [eraseE, he1, he2], by omega, ?_⟩
        intro t ht
        simp only [tagsE, List.mem_append] at ht
        rcases ht with ht | ht
        · have := ht1 t ht; omega
        · have := ht2 t ht; omega

end

mutual

/-- `clone` succeeds on every value containing no `null`. -/
theorem cloneV_ok (v : JVal) : ∀ (c : Nat), noNullV v = true →
    ∃ (c2 : Nat) (w : JVal), cloneV c v = .ok (c2, w) := by
  cases v with
  | varr id l =>
    intro c h
    obtain ⟨c2, l2, hl⟩ := cloneL_ok l c (by simpa [noNullV] using h)
    exact ⟨c2 + 1, .varr c2 l2, by simp [cloneV, hl]⟩
  | vobj id es =>
    intro c h
    obtain ⟨c2, es2, hl⟩ := cloneE_ok es c (by simpa [noNullV] using h)
    exact ⟨c2 + 1, .vobj c2 es2, by simp [cloneV, hl]⟩
  | vfn i => intro c _; exact ⟨c, .vfn i, rfl⟩
  | vnull => intro c h; simp [noNullV] at h
  | vstr s => intro c _; exact ⟨c, .vstr s, rfl⟩
  | vnum n => intro c _; exact ⟨c, .vnum n, rfl⟩
  | vbool b => intro c _; exact ⟨c, .vbool b, rfl⟩
  | vundef => intro c _; exact ⟨c, .vundef, rfl⟩

theorem cloneL_ok (l : JList) : ∀ (c : Nat), noNullL l = true →
    ∃ (c2 : Nat) (w : JList), cloneL c l = .ok (c2, w) := by
  cases l with
  | nil => intro c _; exact ⟨c, .nil, rfl⟩
  | cons v rest =>
    intro c h
    rw [noNullL, Bool.and_eq_true] at h
    obtain ⟨c2, v2, hv⟩ := cloneV_ok v c h.1
    obtain ⟨c3, rest2, hr⟩ := cloneL_ok rest c2 h.2
    exact ⟨c3, .cons v2 rest2, by simp [cloneL, hv, hr]⟩

theorem cloneE_ok (es : JEntries) : ∀ (c : Nat), noNullE es = true →
    ∃ (c2 : Nat) (w : JEntries), cloneE c es = .ok (c2, w) := by
  cases es with
  | nil => intro c _; exact ⟨c, .nil, rfl⟩
  | cons k v rest =>
    intro c h
    rw [noNullE, Bool.and_eq_true] at h
    obtain ⟨c2, v2, hv⟩ := cloneV_ok v c h.1
    obtain ⟨c3, rest2, hr⟩ := cloneE_ok rest c2 h.2
    exact ⟨c3, .cons k v2 rest2, by simp [cloneE, hv, hr]⟩

end

/-- C1: for every non-function, non-cyclic value containing no `null` (clone
throws a TypeError on `null`, see `clone_null_throws`), `clone` succeeds, the
result is deep-equal to the source (equal after erasing container identity
tags, so function leaves keep their identity), and no array or object
instance is shared between source and result at any depth (their tag sets are
disjoint); moreover `clone(fn) === fn` for every function value. -/
theorem clone_copy_spec :
    (∀ (v : JVal) (c : Nat), noNullV v = true → (∀ t ∈ tagsV v, t < c) →
      ∃ (c2 : Nat) (w : JVal), cloneV c v = .ok (c2, w) ∧ eraseV w = eraseV v ∧
        ∀ t ∈ tagsV w, t ∉ tagsV v) ∧
    (∀ (i c : Nat), cloneV c (.vfn i) = .ok (c, .vfn i)) := by
  constructor
  · intro v c hnull hbelow
    obtain ⟨c2, w, hok⟩ := cloneV_ok v c hnull
    obtain ⟨herase, _, htags⟩ := cloneV_spec v c c2 w hok
    refine ⟨c2, w, hok, herase, ?_⟩
    intro t ht hmem
    have h1 := (htags t ht).1
    have h2 := hbelow t hmem
    omega
  · intro i c; rfl

/-- Witness for C1 at a concrete nested value: an object holding a string, an
array of numbers, a function leaf and a nested object, cloned with counter 3. -/
theorem clone_copy_spec_witness :
    ∃ (c2 : Nat) (w : JVal),
      cloneV 3
        (.vobj 0 (.cons "s" (.vstr "x")
          (.cons "a" (.varr 1 (.cons (.vnum 1) (.cons (.vfn 7) .nil)))
          (.cons "o" (.vobj 2 (.cons "k" (.vbool true) .nil)) .nil)))) = .ok (c2, w) ∧
      eraseV w = eraseV
        (.vobj 0 (.cons "s" (.vstr "x")
          (.cons "a" (.varr 1 (.cons (.vnum 1) (.cons (.vfn 7) .nil)))
          (.cons "o" (.vobj 2 (.cons "k" (.vbool true) .nil)) .nil)))) ∧
      ∀ t ∈ tagsV w, t ∉ tagsV
        (.vobj 0 (.cons "s" (.vstr "x")
          (.cons "a" (.varr 1 (.cons (.vnum 1) (.cons (.vfn 7) .nil)))
          (.cons "o" (.vobj 2 (.cons "k" (.vbool true) .nil)) .nil)))) :=
  clone_copy_spec.1 _ 3 (by decide) (by decide)

/-- C2 (code bug): the code does NOT return `null` unchanged — because
`typeof null === 'object'`, `null` falls into the object branch and
`Object.keys(null)` throws a TypeError.  The other primitives (string,
number, boolean, undefined) are returned unchanged as the claim states. -/
theorem clone_null_throws :
    cloneV 0 .vnull = .error "TypeError: Cannot convert undefined or null to object" ∧
    cloneV 0 (.vstr "s") = .ok (0, .vstr "s") ∧
    cloneV 0 (.vnum 3) = .ok (0, .vnum 3) ∧
    cloneV 0 (.vbool true) = .ok (0, .vbool true) ∧
    cloneV 0 .vundef = .ok (0, .vundef) := by
  refine ⟨rfl, rfl, rfl, rfl, rfl⟩

/-! ### merge -/

/-- Property lookup on an object's entry list (first match). -/
def lookupE : JEntries → String → Option JVal
  | .nil, _ => none
  | .cons k v rest, key => if k = key then some v else lookupE rest key

/-- Does the object have the property `key`? -/
def hasKeyE (es : JEntries) (key : String) : Bool :=
  (lookupE es key).isSome

/-- The keys of an object's entry list, in order. -/
def keysE : JEntries → List String
  | .nil => []
  | .cons k _ rest => k :: keysE rest

/-- JavaScript property assignment `obj[k] = v`: an existing key keeps its
position and gets the new value, a fresh key is appended. -/
def assignEntry : JEntries → String → JVal → JEntries
  | .nil, k, v => .cons k v .nil
  | .cons k2 v2 rest, k, v =>
    if k2 = k then .cons k2 v rest else .cons k2 v2 (assignEntry rest k v)

/-- `Object.keys(props).map(function (prop) { newObj[prop] = props[prop]; })`:
assign every entry of `props`, in key-enumeration order, into `es`. -/
def assignAll : JEntries → JEntries → JEntries
  | es, .nil => es
  | es, .cons k v rest => assignAll (assignEntry es k v) rest

/-- Apply the override assignments to the cloned base.  The claims quantify
over mappings, so the object case is the meaningful one; property assignment
on a non-object clone is left as the identity. -/
def setProps : JVal → JEntries → JVal
  | .vobj id es, props => .vobj id (assignAll es props)
  | v, _ => v

/-- `merge` from src/index.js: `var newObj = clone(obj);` then every key of
`props` is written into `newObj` with the raw (non-cloned) override value.
The overrides object is given by its key-enumeration entry list. -/
def mergeV (c : Nat) (base : JVal) (props : JEntries) : Except String (Nat × JVal) :=
  match cloneV c base with
  | .error e => .error e
  | .ok (c2, newObj) => .ok (c2, setProps newObj props)

theorem lookupE_assignEntry_self (es : JEntries) (k : String) (v : JVal) :
    lookupE (assignEntry es k v) k = some v := by
  cases es with
  | nil => simp [assignEntry, lookupE]
  | cons k2 v2 rest =>
    by_cases h : k2 = k
    · subst h; simp [assignEntry, lookupE]
    · simp [assignEntry, lookupE, h, lookupE_assignEntry_self rest k v]

theorem lookupE_assignEntry_other (es : JEntries) (k k' : String) (v : JVal)
    (h : k' ≠ k) : lookupE (assignEntry es k v) k' = lookupE es k' := by
  cases es with
  | nil =>
    have hne : ¬k = k' := fun hh => h hh.symm
    simp [assignEntry, lookupE, hne]
  | cons k2 v2 rest =>
    by_cases h2 : k2 = k
    · subst h2
      have hne : ¬k2 = k' := fun hh => h hh.symm
      simp [assignEntry, lookupE, hne]
    · simp only [assignEntry, if_neg h2]
      by_cases h3 : k2 = k'
      · subst h3; simp [lookupE]
      · simp [lookupE, h3, lookupE_assignEntry_other rest k k' v h]

theorem lookupE_assignAll_absent (props : JEntries) : ∀ (es : JEntries) (k : String),
    hasKeyE props k = false → lookupE (assignAll es props) k = lookupE es k := by
  cases props with
  | nil => intro es k _; rfl
  | cons k0 v0 rest =>
    intro es k h
    rw [hasKeyE, lookupE] at h
    by_cases h0 : k0 = k
    · simp [h0] at h
    · rw [if_neg h0] at h
      rw [assignAll, lookupE_assignAll_absent rest (assignEntry es k0 v0) k
          (by simp [hasKeyE, h]),
        lookupE_assignEntry_other es k0 k v0 (fun hh => h0 hh.symm)]

theorem lookupE_none_of_not_mem (es : JEntries) (k : String) (h : k ∉ keysE es) :
    lookupE es k = none := by
  cases es with
  | nil => rfl
  | cons k0 v0 rest =>
    rw [keysE, List.mem_cons] at h
    push_neg at h
    rw [lookupE, if_neg (fun hh => h.1 hh.symm)]
    exact lookupE_none_of_not_mem rest k h.2

theorem lookupE_assignAll_present (props : JEntries) (hnodup : (keysE props).Nodup) :
    ∀ (es : JEntries) (k : String),
    hasKeyE props k = true → lookupE (assignAll es props) k = lookupE props k := by
  cases props with
  | nil => intro es k h; simp [hasKeyE, lookupE] at h
  | cons k0 v0 rest =>
    rw [keysE, List.nodup_cons] at hnodup
    intro es k h
    by_cases h0 : k0 = k
    · subst h0
      rw [assignAll, lookupE, if_pos rfl,
        lookupE_assignAll_absent rest (assignEntry es k0 v0) k0
          (by simp [hasKeyE, lookupE_none_of_not_mem rest k0 hnodup.1]),
        lookupE_assignEntry_self]
    · rw [hasKeyE, lookupE, if_neg h0] at h
      rw [assignAll, lookupE, if_neg h0]
      exact lookupE_assignAll_present rest hnodup.2 (assignEntry es k0 v0) k h

/-- C3: `merge(base, overrides)` is exactly clone-then-raw-overwrite.  When
`clone(base)` throws, `merge` propagates the same error; when it succeeds,
`merge` returns the freshly cloned object with, at every override key, the
raw (reference-identical, tag-preserving) override value, and at every other
key the cloned base value.  The result is a new mapping: its identity tag is
not a tag of `base` (the source is never written to — the only assignments
target the fresh clone), and `overrides` is only read. -/
theorem merge_spec (c : Nat) (base : JVal) (props : JEntries)
    (hnodup : (keysE props).Nodup) :
    (∀ e, cloneV c base = .error e → mergeV c base props = .error e) ∧
    (∀ (c2 id : Nat) (es : JEntries), cloneV c base = .ok (c2, .vobj id es) →
      mergeV c base props = .ok (c2, .vobj id (assignAll es props)) ∧
      (∀ k, hasKeyE props k = true → lookupE (assignAll es props) k = lookupE props k) ∧
      (∀ k, hasKeyE props k = false → lookupE (assignAll es props) k = lookupE es k) ∧
      ((∀ t ∈ tagsV base, t < c) → id ∉ tagsV base)) := by
  constructor
  · intro e he; rw [mergeV, he]
  · intro c2 id es hok
    refine ⟨by rw [mergeV, hok]; rfl,
      fun k hk => lookupE_assignAll_present props hnodup es k hk,
      fun k hk => lookupE_assignAll_absent props es k hk, ?_⟩
    intro hbelow hmem
    obtain ⟨_, _, htags⟩ := cloneV_spec base c c2 (.vobj id es) hok
    have h1 := (htags id (by simp [tagsV])).1
    have h2 := hbelow id hmem
    omega

/-- Base object `{a: "x", b: 1}` with identity tag 0 for the C3 witness. -/
def exBase3 : JVal :=
  .vobj 0 (.cons "a" (.vstr "x") (.cons "b" (.vnum 1) .nil))

/-- Entry list of `exBase3`. -/
def exEntries3 : JEntries :=
  .cons "a" (.vstr "x") (.cons "b" (.vnum 1) .nil)

/-- Overrides `{a: {z: 2}, c: null}` (the override object carries tag 9; a
`null` override is fine because overrides are never cloned). -/
def exProps3 : JEntries :=
  .cons "a" (.vobj 9 (.cons "z" (.vnum 2) .nil)) (.cons "c" .vnull .nil)

/-- Witness for C3: merging concrete objects; the overridden key holds the
raw override object (same tag 9), the untouched key keeps the cloned base
value, and the result's tag is fresh. -/
theorem merge_spec_witness :
    mergeV 1 exBase3 exProps3 = .ok (2, .vobj 1 (assignAll exEntries3 exProps3)) ∧
    lookupE (assignAll exEntries3 exProps3) "a" = lookupE exProps3 "a" ∧
    lookupE (assignAll exEntries3 exProps3) "b" = lookupE exEntries3 "b" ∧
    1 ∉ tagsV exBase3 :=
  have h := (merge_spec 1 exBase3 exProps3 (by decide)).2 2 1 exEntries3 rfl
  ⟨h.1, h.2.1 "a" (by decide), h.2.2.1 "b" (by decide), h.2.2.2 (by decide)⟩

/-- Counterexample to C1 as stated: `[null]` is a non-function, non-cyclic
value, yet `clone([null])` is not deep-equal to it — the recursive call on
the `null` element throws a TypeError instead of returning. -/
theorem clone_cex_null_member :
    cloneV 1 (.varr 0 (.cons .vnull .nil)) =
      .error "TypeError: Cannot convert undefined or null to object" := rfl

/-! ### existy and dispatch -/

/-- `existy` from src/index.js: `test != null` with loose equality, which is
`false` exactly for `null` and `undefined`. -/
def existy : JVal → Bool
  | .vnull => false
  | .vundef => false
  | _ => true

/-- The loop of `do_dispatch` from src/index.js.  `ret` is the mutable `ret`
variable (initially `undefined`); each iteration invokes the next handler as
`fn.apply(null, [target].concat(args))`, returns its result as soon as it is
existy, and otherwise keeps it in `ret`; after the loop the last `ret` is
returned.  The second component counts how many handlers were invoked. -/
def dispatchLoop (t : JVal) (args : List JVal) (ret : JVal) :
    List (JVal → List JVal → JVal) → JVal × Nat
  | [] => (ret, 0)
  | f :: rest =>
    let r := f t args
    if existy r then (r, 1)
    else
      let p := dispatchLoop t args r rest
      (p.1, p.2 + 1)

/-- `dispatch(fn1, ..., fnN)(target, ...args)` from src/index.js, returning
the result together with the number of handlers invoked. -/
def do_dispatch (fns : List (JVal → List JVal → JVal)) (t : JVal) (args : List JVal) :
    JVal × Nat :=
  dispatchLoop t args .vundef fns

theorem dispatchLoop_cons (t : JVal) (args : List JVal) (ret : JVal)
    (f : JVal → List JVal → JVal) (rest : List (JVal → List JVal → JVal)) :
    dispatchLoop t args ret (f :: rest) =
      if existy (f t args) then (f t args, 1)
      else ((dispatchLoop t args (f t args) rest).1,
            (dispatchLoop t args (f t args) rest).2 + 1) := rfl

theorem dispatchLoop_first (t : JVal) (args : List JVal) :
    ∀ (fns : List (JVal → List JVal → JVal)) (ret : JVal) (i : Nat) (hi : i < fns.length),
    ((fns.take i).all fun f => !existy (f t args)) = true →
    existy ((fns.get ⟨i, hi⟩) t args) = true →
    dispatchLoop t args ret fns = ((fns.get ⟨i, hi⟩) t args, i + 1) := by
  intro fns
  induction fns with
  | nil => intro ret i hi; simp at hi
  | cons f rest ih =>
    intro ret i hi htake hex
    cases i with
    | zero =>
      simp only [List.get] at hex ⊢
      rw [dispatchLoop_cons, if_pos hex]
    | succ n =>
      rw [List.take_succ_cons, List.all_cons, Bool.and_eq_true] at htake
      have hf : existy (f t args) = false := by
        have := htake.1; simp at this; exact this
      simp only [List.get_cons_succ] at hex ⊢
      rw [dispatchLoop_cons, if_neg (by simp [hf]),
        ih (f t args) n (Nat.lt_of_succ_lt_succ hi) htake.2 hex]

theorem dispatchLoop_none (t : JVal) (args : List JVal) :
    ∀ (fns : List (JVal → List JVal → JVal)) (ret : JVal),
    (fns.all fun f => !existy (f t args)) = true →
    ∀ g, fns.getLast? = some g →
    dispatchLoop t args ret fns = (g t args, fns.length) := by
  intro fns
  induction fns with
  | nil => intro ret _ g hg; simp at hg
  | cons f rest ih =>
    intro ret hall g hg
    rw [List.all_cons, Bool.and_eq_true] at hall
    have hf : existy (f t args) = false := by
      have := hall.1; simp at this; exact this
    cases rest with
    | nil =>
      rw [List.getLast?_singleton, Option.some.injEq] at hg
      subst hg
      rw [dispatchLoop_cons, if_neg (by simp [hf])]
      rfl
    | cons f2 rest2 =>
      rw [List.getLast?_cons_cons] at hg
      rw [dispatchLoop_cons, if_neg (by simp [hf]), ih (f t args) hall.2 g hg]
      rfl

/-- C5: the dispatcher invokes the handlers in order.  If the handlers before
position `i` all return non-existy results and handler `i` returns an existy
result, the dispatcher returns that result having invoked exactly the first
`i + 1` handlers; if every handler returns a non-existy result, the last
handler's (non-existy) result is returned after all `fns.length` handlers
were invoked. -/
theorem dispatch_first_existy (fns : List (JVal → List JVal → JVal))
    (t : JVal) (args : List JVal) :
    (∀ (i : Nat) (hi : i < fns.length),
      ((fns.take i).all fun f => !existy (f t args)) = true →
      existy ((fns.get ⟨i, hi⟩) t args) = true →
      do_dispatch fns t args = ((fns.get ⟨i, hi⟩) t args, i + 1)) ∧
    ((fns.all fun f => !existy (f t args)) = true →
      ∀ g, fns.getLast? = some g →
      do_dispatch fns t args = (g t args, fns.length)) :=
  ⟨fun i hi htake hex => dispatchLoop_first t args fns .vundef i hi htake hex,
   fun hall g hg => dispatchLoop_none t args fns .vundef hall g hg⟩

/-- Handlers for the C5 witness: the first returns `null` (non-existy), the
second and third return strings. -/
def exFns5 : List (JVal → List JVal → JVal) :=
  [fun _ _ => .vnull, fun _ _ => .vstr "MIDDLE", fun _ _ => .vstr "LAST"]

/-- Witness for C5: with a non-existy first handler, dispatch returns the
second handler's result and has invoked exactly two handlers (so the first
handler was invoked even though its result was discarded). -/
theorem dispatch_first_existy_witness :
    do_dispatch exFns5 (.vstr "TEST") [] = (.vstr "MIDDLE", 2) :=
  (dispatch_first_existy exFns5 (.vstr "TEST") []).1 1 (by decide) rfl rfl

/-! ### memoize -/

/-- Escape one character of a JSON string literal (quote and backslash; the
claims involve no control characters, whose escaping is not modelled). -/
def jsonEscapeChar (ch : Char) : String :=
  if ch = '"' then "\\\"" else if ch = '\\' then "\\\\" else String.singleton ch

/-- A JSON string literal. -/
def jsonQuote (s : String) : String :=
  "\"" ++ String.join (s.toList.map jsonEscapeChar) ++ "\""

mutual

/-- `JSON.stringify` of a single value: `undefined` and functions have no
JSON representation (`none`), which makes them disappear from object
properties and become `"null"` inside arrays. -/
def stringifyV : JVal → Option String
  | .vstr s => some (jsonQuote s)
  | .vnum n => some (toString n)
  | .vbool b => some (cond b "true" "false")
  | .vnull => some "null"
  | .vundef => none
  | .vfn _ => none
  | .varr _ l => some ("[" ++ stringifyL l ++ "]")
  | .vobj _ es => some ("\x7b" ++ stringifyE es ++ "\x7d")

/-- Array elements joined with `","`; elements without a representation
(`undefined`, functions) are serialized as `"null"`. -/
def stringifyL : JList → String
  | .nil => ""
  | .cons v .nil => (stringifyV v).getD "null"
  | .cons v (.cons v2 rest) =>
    (stringifyV v).getD "null" ++ "," ++ stringifyL (.cons v2 rest)

/-- Object entries joined with `","`; entries whose value is `undefined` or
a function are dropped entirely. -/
def stringifyE : JEntries → String
  | .nil => ""
  | .cons k v rest =>
    match stringifyV v with
    | none => stringifyE rest
    | some sv =>
      match stringifyE rest with
      | "" => jsonQuote k ++ ":" ++ sv
      | s => jsonQuote k ++ ":" ++ sv ++ "," ++ s

end

/-- The `arguments` object of a call viewed as a JavaScript object: index
keys `"0"`, `"1"`, ... in ascending order (`length` and `callee` are not
enumerable, so they never reach `JSON.stringify`). -/
def argsEntries : Nat → List JVal → JEntries
  | _, [] => .nil
  | i, v :: rest => .cons (toString i) v (argsEntries (i + 1) rest)

/-- `JSON.stringify(arguments)`: the cache key computed by `_memoize`. -/
def jsonKey (args : List JVal) : String :=
  "\x7b" ++ stringifyE (argsEntries 0 args) ++ "\x7d"

/-- One call of the closure `_memoize` returned by `memoize(fn)` in
src/index.js.  The cache `memo` maps serialized keys to stored results; the
presence check is `typeof memo[key] === 'undefined'`, which holds both when
the key is absent and when the stored result is itself `undefined` — in
either case `fn` is invoked and its result stored, otherwise the cached
value is returned.  Yields the new cache, the returned value, and whether
`fn` was invoked. -/
def memoStep (fn : List JVal → JVal) (memo : List (String × JVal)) (args : List JVal) :
    List (String × JVal) × JVal × Bool :=
  let key := jsonKey args
  match memo.lookup key with
  | some v => if v = .vundef then ((key, fn args) :: memo, fn args, true) else (memo, v, false)
  | none => ((key, fn args) :: memo, fn args, true)

/-- C4: calling a memoized function twice with identical arguments: the
first call invokes `fn` and returns its result; the second call returns the
cached result without invoking `fn` — except when the result was
`undefined`, in which case `fn` is invoked again. -/
theorem memoize_twice (fn : List JVal → JVal) (args : List JVal) :
    (memoStep fn [] args).2.2 = true ∧
    (memoStep fn [] args).2.1 = fn args ∧
    (fn args ≠ .vundef →
      (memoStep fn (memoStep fn [] args).1 args).2.2 = false ∧
      (memoStep fn (memoStep fn [] args).1 args).2.1 = fn args) ∧
    (fn args = .vundef →
      (memoStep fn (memoStep fn [] args).1 args).2.2 = true) := by
  by_cases hu : fn args = .vundef
  · refine ⟨rfl, rfl, fun hne => absurd hu hne, fun _ => ?_⟩
    simp [memoStep, List.lookup, hu]
  · refine ⟨rfl, rfl, fun _ => ?_, fun h => absurd h hu⟩
    constructor <;> simp [memoStep, List.lookup, hu]

/-- The constant function returning the string `"a"`, for witnesses. -/
def constStrA : List JVal → JVal := fun _ => .vstr "a"

/-- Witness for C4: a function with a non-`undefined` result, called twice
with no arguments, is invoked on the first call and not on the second. -/
theorem memoize_twice_witness :
    (memoStep constStrA [] []).2.2 = true ∧
    (memoStep constStrA (memoStep constStrA [] []).1 []).2.2 = false :=
  ⟨(memoize_twice constStrA []).1,
   ((memoize_twice constStrA []).2.2.1 (by decide)).1⟩

/-- The constant function returning `undefined`, for the C10 counterexample. -/
def constUndef : List JVal → JVal := fun _ => (.vundef)

/-- Counterexample to C10 as stated: `[undefined]` and `[]` are distinct
argument lists serializing to the same key (serialization drops `undefined`
object properties), yet for a function whose result is `undefined` the
wrapped function also runs on the second, colliding call — it does not run
"only for the first such call". -/
theorem memoize_collision_cex :
    jsonKey [JVal.vundef] = jsonKey [] ∧
    [JVal.vundef] ≠ ([] : List JVal) ∧
    (memoStep constUndef [] [JVal.vundef]).2.2 = true ∧
    (memoStep constUndef (memoStep constUndef [] [JVal.vundef]).1 []).2.2 = true := by
  refine ⟨rfl, by decide, rfl, by decide⟩

/-- C10 amended: any two calls whose argument lists serialize to the same
key share one cache entry; provided the first result is not `undefined`,
the wrapped function runs only for the first such call and that first
result is returned for the later colliding call (when the first result is
`undefined` it is recomputed, per the `typeof`-presence check). -/
theorem memoize_collision_amended (fn : List JVal → JVal) (a1 a2 : List JVal)
    (hkey : jsonKey a1 = jsonKey a2) (_hne : a1 ≠ a2) (hres : fn a1 ≠ .vundef) :
    (memoStep fn [] a1).2.2 = true ∧
    (memoStep fn [] a1).2.1 = fn a1 ∧
    (memoStep fn (memoStep fn [] a1).1 a2).2.2 = false ∧
    (memoStep fn (memoStep fn [] a1).1 a2).2.1 = fn a1 := by
  refine ⟨rfl, rfl, ?_, ?_⟩ <;>
  · simp only [memoStep]
    rw [← hkey]
    simp [List.lookup, hres]

/-- Witness for the amended C10: the colliding argument lists `[undefined]`
and `[]` with a function returning `"a"`; the second call is served from
the first call's cache entry. -/
theorem memoize_collision_amended_witness :
    (memoStep constStrA [] [JVal.vundef]).2.2 = true ∧
    (memoStep constStrA (memoStep constStrA [] [JVal.vundef]).1 []).2.2 = false ∧
    (memoStep constStrA (memoStep constStrA [] [JVal.vundef]).1 []).2.1 = JVal.vstr "a" :=
  have h := memoize_collision_amended constStrA [JVal.vundef] [] rfl (by decide) (by decide)
  ⟨h.1, h.2.2.1, h.2.2.2⟩

/-! ### generateScale -/

/-- `generateScale` from src/index.js over exact rationals: linear
interpolation `(outputDiff * (x - inputMin) / inputDiff) + outputMin`
followed by the clamp
`test < outputMin ? outputMin : test > outputMax ? outputMax : test`.
(The claim's inputs and every intermediate value at them are exactly
representable in IEEE-754 binary64, so `ℚ` models those runs faithfully.) -/
def generateScale (inputMin inputMax outputMin outputMax : ℚ) (x : ℚ) : ℚ :=
  let inputDiff := inputMax - inputMin
  let outputDiff := outputMax - outputMin
  let test := outputDiff * (x - inputMin) / inputDiff + outputMin
  if test < outputMin then outputMin else if test > outputMax then outputMax else test

/-- C8: the scale generated by `generateScale(5, 10, 0, 10)` maps `4 ↦ 0`,
`5 ↦ 0`, `7.5` to a value strictly between `0` and `10` (namely `5`),
`10 ↦ 10` and `11 ↦ 10`. -/
theorem genScale_example :
    generateScale 5 10 0 10 4 = 0 ∧
    generateScale 5 10 0 10 5 = 0 ∧
    0 < generateScale 5 10 0 10 7.5 ∧
    generateScale 5 10 0 10 7.5 < 10 ∧
    generateScale 5 10 0 10 10 = 10 ∧
    generateScale 5 10 0 10 11 = 10 := by
  refine ⟨?_, ?_, ?_, ?_, ?_, ?_⟩ <;> norm_num [generateScale]

/-! ### the array helpers: reduce and slice -/

/-- `Array.prototype.reduce` with an initial value — the standard sequence
left fold the claim says the exported `reduce` wraps. -/
def arrayReduce (f : JVal → JVal → JVal) (z : JVal) : JList → JVal
  | .nil => z
  | .cons v rest => arrayReduce f (f z v) rest

/-- The exported `reduce` from src/index.js is `Function.call.bind(Array)`:
`reduce(arr, f, z)` evaluates `Array.call(arr, f, z)`, i.e. the `Array`
constructor applied to `(f, z)` with `arr` as the ignored `this` — a fresh
two-element array `[f, z]`.  It never reads `arr` and never invokes `f`. -/
def reduceJS (c : Nat) (_arr : JVal) (f : JVal) (z : JVal) : Nat × JVal :=
  (c + 1, .varr c (.cons f (.cons z .nil)))

/-- Drop the first `i` elements of a list. -/
def dropJ : Nat → JList → JList
  | 0, l => l
  | _ + 1, .nil => .nil
  | i + 1, .cons _ rest => dropJ i rest

/-- The exported `slice` from src/index.js is `Function.call.bind([].slice)`:
`slice(arr, i)` is `Array.prototype.slice.call(arr, i)` — a fresh array of
the elements of `arr` from index `i` on (modelled for `i ≥ 0`). -/
def sliceJS (c : Nat) (l : JList) (i : Nat) : Nat × JVal :=
  (c + 1, .varr c (dropJ i l))

/-- The list `1, 2, 3` for the C9 evaluation. -/
def exList9 : JList := .cons (.vnum 1) (.cons (.vnum 2) (.cons (.vnum 3) .nil))

/-- Numeric addition — the semantics of the claim's binary function. -/
def addJ : JVal → JVal → JVal
  | .vnum a, .vnum b => .vnum (a + b)
  | _, _ => (.vundef)

/-- C9 (code bug): `slice(arr, 1)` does agree with `arr.slice(1)`, but
`reduce([1,2,3], f, 0)` builds the fresh two-element array `[f, 0]`
(`Function.call.bind(Array)` calls the `Array` constructor) instead of the
standard fold `[1,2,3].reduce(f, 0) = 6` that the code's own doc comment
("functional method to reduce array or arguments") promises. -/
theorem reduce_not_array_reduce :
    reduceJS 5 (.varr 99 exList9) (.vfn 7) (.vnum 0) =
      (6, .varr 5 (.cons (.vfn 7) (.cons (.vnum 0) .nil))) ∧
    arrayReduce addJ (.vnum 0) exList9 = .vnum 6 ∧
    (reduceJS 5 (.varr 99 exList9) (.vfn 7) (.vnum 0)).2 ≠
      arrayReduce addJ (.vnum 0) exList9 ∧
    sliceJS 5 exList9 1 = (6, .varr 5 (.cons (.vnum 2) (.cons (.vnum 3) .nil))) := by
  refine ⟨rfl, by decide, by decide, rfl⟩

/-! ### monad -/

/-- A monad instance produced by one `unit` constructor: the closure state
is the stored `value`; the shared `_is_monad` marker is carried by the type
itself. -/
structure MonadVal (α : Type) where
  val : α

/-- What a bound function may return: a plain value — falsy or without the
`_is_monad` marker, re-wrapped through `unit` — or a marked monad instance,
returned as-is. -/
inductive BindRes (α : Type) where
  | raw : α → BindRes α
  | monadic : MonadVal α → BindRes α

/-- `unit(value)` from src/index.js: the stored value is
`modifier(monad, value)` when a modifier function was supplied.  The
modifiers of the spec and tests use only the `value` argument, so the
modifier is modelled as a function of the value. -/
def unit {α : Type} (modifier : α → α) (v : α) : MonadVal α :=
  ⟨modifier v⟩

/-- `monad.bind(fn, args)` from src/index.js:
`result = fn.apply(null, [value].concat(argsCopy))`; a result carrying the
`_is_monad` marker is returned as-is, anything else is wrapped via
`unit(result)`, re-running the modifier on it. -/
def mbind {α : Type} (modifier : α → α) (m : MonadVal α) (fn : α → List α → BindRes α)
    (args : List α) : MonadVal α :=
  match fn m.val args with
  | .raw r => unit modifier r
  | .monadic w => w

/-- The shared capability prototype of one `monad(modifier)` constructor:
`_is_monad = true` plus the operations registered by `lift`, newest last. -/
structure Proto (α : Type) where
  ops : List (String × (α → List α → BindRes α))

/-- Truthiness of `prototype[name]`: `true` for the `_is_monad` marker and
for every registered operation (functions are truthy), `false` (undefined)
otherwise.  The instance properties `bind` and `value` live on the
instances themselves, not on the prototype. -/
def protoHas {α : Type} (p : Proto α) (name : String) : Bool :=
  (name == "_is_monad") || (p.ops.lookup name).isSome

/-- `unit.lift(name, fn)` from src/index.js: throws
`'"name" is already defined'` when `prototype[name]` is truthy, otherwise
registers on the shared prototype an operation running
`this.bind(fn, arguments)` (whose result, being a marked instance, is
returned as-is by the wrapper). -/
def lift {α : Type} (p : Proto α) (name : String) (fn : α → List α → BindRes α) :
    Except String (Proto α) :=
  if protoHas p name then .error ("\"" ++ name ++ "\" is already defined")
  else .ok ⟨p.ops ++ [(name, fn)]⟩

/-- Invoking `instance[name](...args)`: the operation is looked up on the
shared prototype as it is at call time (instances hold no own copy), and
runs `this.bind(fn, arguments)`. -/
def callOp {α : Type} (modifier : α → α) (p : Proto α) (m : MonadVal α) (name : String)
    (args : List α) : Option (MonadVal α) :=
  match p.ops.lookup name with
  | some fn => some (mbind modifier m fn args)
  | none => none

/-- The modifier of C6: appends `" - modified"` to the wrapped value. -/
def modC6 : String → String := fun v => v ++ " - modified"

/-- The lifted operation of C6: appends `" - lifted"`, returning a plain
(unmarked) value. -/
def liftedC6 : String → List String → BindRes String := fun v _ => .raw (v ++ " - lifted")

/-- C6: `monad(modifier)('x').value()` is `"x - modified"`; after lifting
`l`, calling it and then `value()` yields
`"x - modified - lifted - modified"` — `bind` applied the lifted function
to the stored value and re-wrapped its raw result through `unit`,
re-running the modifier on it. -/
theorem monad_modifier_example :
    (unit modC6 "x").val = "x - modified" ∧
    lift (⟨[]⟩ : Proto String) "l" liftedC6 = .ok ⟨[("l", liftedC6)]⟩ ∧
    (callOp modC6 ⟨[("l", liftedC6)]⟩ (unit modC6 "x") "l" []).map MonadVal.val =
      some "x - modified - lifted - modified" :=
  ⟨rfl, rfl, rfl⟩

theorem lookup_append_right {α β : Type} [BEq α] (l1 l2 : List (α × β)) (k : α)
    (h : l1.lookup k = none) : (l1 ++ l2).lookup k = l2.lookup k := by
  induction l1 with
  | nil => rfl
  | cons q rest ih =>
    obtain ⟨k1, v1⟩ := q
    simp only [List.cons_append, List.lookup] at h ⊢
    cases hk : k == k1 with
    | true => simp only [hk] at h; exact absurd h (by simp)
    | false => simp only [hk] at h ⊢; exact ih h

theorem protoHas_false_lookup {α : Type} (p : Proto α) (name : String)
    (h : protoHas p name = false) : p.ops.lookup name = none := by
  rw [protoHas, Bool.or_eq_false_iff] at h
  rcases hlk : p.ops.lookup name with _ | v
  · rfl
  · rw [hlk] at h
    simp at h

/-- C7: `lift` on a name already truthy on the shared prototype — the
`_is_monad` marker or any previously lifted name — throws the
naming-conflict error; on a fresh name it succeeds, appending the operation
to the shared prototype, and the operation is then available through the
prototype to every instance of this constructor, past and future alike,
since instances consult the prototype at call time. -/
theorem lift_conflict_and_extend {α : Type} (modifier : α → α) (p : Proto α)
    (name : String) (fn : α → List α → BindRes α) :
    (protoHas p name = true →
      ∀ g, lift p name g = .error ("\"" ++ name ++ "\" is already defined")) ∧
    (∀ p', lift p name fn = .ok p' →
      ∀ g, lift p' name g = .error ("\"" ++ name ++ "\" is already defined")) ∧
    (protoHas p name = false →
      lift p name fn = .ok ⟨p.ops ++ [(name, fn)]⟩ ∧
      ∀ (m : MonadVal α) (args : List α),
        callOp modifier (⟨p.ops ++ [(name, fn)]⟩ : Proto α) m name args =
          some (mbind modifier m fn args)) := by
  have hself : (List.lookup name [(name, fn)]) = some fn := by
    rw [List.lookup, beq_self_eq_true]
  refine ⟨fun h g => ?_, fun p' h g => ?_, fun h => ?_⟩
  · rw [lift, if_pos h]
  · rw [lift] at h
    by_cases hp : protoHas p name = true
    · rw [if_pos hp] at h; exact absurd h (by simp)
    · have hpf : protoHas p name = false := by
        cases hpv : protoHas p name
        · rfl
        · exact absurd hpv hp
      rw [if_neg hp] at h
      have hp' : p' = ⟨p.ops ++ [(name, fn)]⟩ := (Except.ok.inj h).symm
      subst hp'
      have htrue : protoHas (⟨p.ops ++ [(name, fn)]⟩ : Proto α) name = true := by
        rw [protoHas,
          lookup_append_right p.ops [(name, fn)] name (protoHas_false_lookup p name hpf),
          hself]
        simp
      rw [lift, if_pos htrue]
  · have hfalse : ¬protoHas p name = true := by rw [h]; exact Bool.false_ne_true
    have hnone := protoHas_false_lookup p name h
    refine ⟨by rw [lift, if_neg hfalse], fun m args => ?_⟩
    rw [callOp]
    rw [lookup_append_right p.ops [(name, fn)] name hnone, hself]

/-- Witness for C7: on a fresh prototype, lifting `"m1"` succeeds and the
operation works on an instance; re-lifting `"m1"` and lifting the marker
name `"_is_monad"` both throw the naming-conflict error. -/
theorem lift_conflict_and_extend_witness :
    lift (⟨[]⟩ : Proto String) "m1" liftedC6 = .ok ⟨[] ++ [("m1", liftedC6)]⟩ ∧
    callOp modC6 (⟨[] ++ [("m1", liftedC6)]⟩ : Proto String) (unit modC6 "x") "m1" [] =
      some (mbind modC6 (unit modC6 "x") liftedC6 []) ∧
    lift (⟨[] ++ [("m1", liftedC6)]⟩ : Proto String) "m1" liftedC6 =
      .error ("\"" ++ "m1" ++ "\" is already defined") ∧
    lift (⟨[]⟩ : Proto String) "_is_monad" liftedC6 =
      .error ("\"" ++ "_is_monad" ++ "\" is already defined") :=
  have h3 := (lift_conflict_and_extend modC6 (⟨[]⟩ : Proto String) "m1" liftedC6).2.2 rfl
  ⟨h3.1, h3.2 (unit modC6 "x") [],
   (lift_conflict_and_extend modC6 (⟨[]⟩ : Proto String) "m1" liftedC6).2.1
     ⟨[] ++ [("m1", liftedC6)]⟩ h3.1 liftedC6,
   (lift_conflict_and_extend modC6 (⟨[]⟩ : Proto String) "_is_monad" liftedC6).1 rfl liftedC6⟩

end Funtils
